import Mathlib

/-!
Verification of the averaged-perceptron trainer
(`lib/crf/src/train_averaged_perceptron.c`).

Shallow embedding conventions:
* `floatval_t` (a C `double`) is modelled by `ℚ`; all the arithmetic the
  trainer performs (additions, multiplications by integer counters, the
  divisions `d / num_items`, `ws / c` and `loss / N`) is exact over ℚ.
  The one place where IEEE semantics matters is the convergence test with
  `N = 0`, where the C expression `0.0 / 0` evaluates to NaN and
  `NaN < epsilon` is false; `convergenceTest` encodes that case explicitly.
* Dense `floatval_t*` arrays of length `K` are modelled as total functions
  `ℕ → ℚ`; the trainer only ever touches indices delivered by the feature
  oracle, and the returned vector is materialised over `List.range K`.
* The injected collaborators (the decoder `tag`, the feature oracle
  `enum_features`, the per-epoch shuffler, and the five `calloc` calls) are
  modelled as explicit parameters: the oracle's visit sequence is the list
  of `(fid, value)` pairs it hands to the callback, the shuffler is a
  stream of permutations indexed by epoch, and allocation success is an
  oracle of five booleans.
* The state carries ghost fields (`hist`, the call counters) recording the
  execution history; they influence nothing the algorithm computes.
-/

attribute [local semireducible] Rat.add Rat.mul Rat.sub Rat.inv

/-- Rational stand-in for the C `floatval_t` (`double`). -/
abbrev floatval_t := ℚ

/-- Dense weight array (`floatval_t*` of length K), as a total function. -/
abbrev WArray := ℕ → ℚ

/-- A training instance (`crf_instance_t`): the trainer reads only the gold
label array `labels` and its length `num_items`. -/
structure crf_instance_t where
  labels : List Int

/-- The instance's `num_items` field (the length of its label array). -/
def crf_instance_t.num_items (s : crf_instance_t) : ℕ := s.labels.length

/-- The `diff` function of the source: the number of positions where the two
label arrays disagree, over `num_items` positions (the arrays are compared
pointwise; `zip` realises the common index range). -/
def diff (x y : List Int) : ℕ :=
  (x.zip y).countP fun p => decide (p.1 ≠ p.2)

/-- The training batch (`crf_train_data_t`) with its two behavioural
capabilities: `tag` (the decoder, returning the predicted label sequence and
a score) and `enum_features` (the feature oracle, modelled by the list of
`(fid, value)` visits it performs for a given labelling). -/
structure crf_train_data_t where
  seqs : List crf_instance_t
  num_features : ℕ
  tag : WArray → crf_instance_t → List Int × ℚ
  enum_features : crf_instance_t → List Int → List (ℕ × ℚ)

/-- `N`, the number of training instances. -/
def crf_train_data_t.num_instances (B : crf_train_data_t) : ℕ := B.seqs.length

/-- The two tunables read from the parameter store (`option_t`). -/
structure option_t where
  max_iterations : Int
  epsilon : ℚ

/-- Defaults documented in `exchange_options`: 10 iterations, epsilon 0. -/
def default_options : option_t := ⟨10, 0⟩

/-- The callback context `update_data` of the source. -/
structure update_data where
  w : WArray
  ws : WArray
  c : ℚ
  cs : ℚ

/-- The `update_weights` callback: `w[fid] += c * value; ws[fid] += cs * value`. -/
def update_weights (ud : update_data) (fid : ℕ) (value : ℚ) : update_data :=
  { ud with
    w := Function.update ud.w fid (ud.w fid + ud.c * value)
    ws := Function.update ud.ws fid (ud.ws fid + ud.cs * value) }

/-- One `batch->enum_features(batch, seq, labels, update_weights, &ud)` call:
the oracle invokes `update_weights` once per visited `(fid, value)` pair, in
order. -/
def enum_apply (visits : List (ℕ × ℚ)) (ud : update_data) : update_data :=
  visits.foldl (fun a p => update_weights a p.1 p.2) ud

/-- The trainer's state across the loops.  `w`, `ws` and the counter `c` are
the program variables; `hist` (the value of `w` after each processed
instance) and the three call counters are ghost fields recording the
execution history for specification purposes only. -/
structure APState where
  w : WArray
  ws : WArray
  c : ℕ
  hist : List WArray
  decodeCalls : ℕ
  enumCalls : ℕ
  shuffleCalls : ℕ

/-- State after line 144: `w = ws = 0` (calloc), `c = 1`, nothing recorded. -/
def initState : APState :=
  ⟨fun _ => 0, fun _ => 0, 1, [], 0, 0, 0⟩

/-- Body of the per-instance loop (source lines 155–187): decode the
instance with the current `w`, count label disagreements `d`; on a mistake
(`0 < d`) add each gold feature with multipliers `(1, c)`, subtract each
predicted feature with multipliers `(-1, -c)`, and add `d / num_items` to
the epoch loss; in every case advance `c` by one.  Returns the new state and
the new epoch loss. -/
def processInstance (B : crf_train_data_t) (seq : crf_instance_t)
    (st : APState) (loss : ℚ) : APState × ℚ :=
  let viterbi := (B.tag st.w seq).1
  let d := diff seq.labels viterbi
  if 0 < d then
    let ud1 := enum_apply (B.enum_features seq seq.labels)
      ⟨st.w, st.ws, 1, (st.c : ℚ)⟩
    let ud2 := enum_apply (B.enum_features seq viterbi)
      ⟨ud1.w, ud1.ws, -1, -(st.c : ℚ)⟩
    ({ w := ud2.w
       ws := ud2.ws
       c := st.c + 1
       hist := st.hist ++ [ud2.w]
       decodeCalls := st.decodeCalls + 1
       enumCalls := st.enumCalls + 2
       shuffleCalls := st.shuffleCalls },
     loss + (d : ℚ) / (seq.num_items : ℚ))
  else
    ({ st with
       c := st.c + 1
       hist := st.hist ++ [st.w]
       decodeCalls := st.decodeCalls + 1 },
     loss)

/-- One epoch's instance loop: process `seqs[perm[n]]` for `n = 0..N-1`,
with the epoch loss starting at 0. -/
def runEpoch (B : crf_train_data_t) (perm : List ℕ) (st : APState) :
    APState × ℚ :=
  perm.foldl (fun a i => processInstance B (B.seqs.getD i ⟨[]⟩) a.1 a.2)
    (st, 0)

/-- Epoch-end averaging (source lines 189–191):
`veccopy(wa, w, K); vecasub(wa, 1./c, ws, K)`, i.e. `wa[f] = w[f] - (1/c)·ws[f]`. -/
def waOf (st : APState) : WArray :=
  fun f => st.w f - (1 / (st.c : ℚ)) * st.ws f

/-- The convergence test of source line 201: `loss / N < epsilon`.
In the source both operands are IEEE doubles.  When `N = 0` the loss
reachable there is 0 and `0.0 / 0` evaluates to NaN, and `NaN < epsilon` is
false for every `epsilon`; the `N = 0` branch encodes exactly that
behaviour.  For `N ≠ 0` the quotient is an ordinary real number, modelled
exactly over ℚ. -/
def convergenceTest (loss : ℚ) (N : ℕ) (eps : ℚ) : Bool :=
  if N = 0 then false else decide (loss / (N : ℚ) < eps)

/-- Ghost bookkeeping for the `mt_shuffle` call opening an epoch. -/
def bumpShuffle (st : APState) : APState :=
  { st with shuffleCalls := st.shuffleCalls + 1 }

/-- The epoch loop (source lines 148–206).  `fuel` is the number of
remaining iterations (`max_iterations` minus those already run), `i` the
epoch index (used only to draw that epoch's permutation from the shuffle
oracle `perms`).  Returns the final state and the ghost trace of
(epoch-end state, epoch loss) pairs, one per executed epoch; the loop
breaks right after an epoch whose loss passes the convergence test. -/
def trainLoop (B : crf_train_data_t) (eps : ℚ) (perms : ℕ → List ℕ) :
    ℕ → ℕ → APState → APState × List (APState × ℚ)
  | 0, _, st => (st, [])
  | Nat.succ fuel, i, st =>
    let p := runEpoch B (perms i) (bumpShuffle st)
    if convergenceTest p.2 B.num_instances eps then
      (p.1, [(p.1, p.2)])
    else
      let r := trainLoop B eps perms fuel (i + 1) p.1
      (r.1, (p.1, p.2) :: r.2)

/-- Which of the five `calloc` calls (perm, w, ws, wa, viterbi) succeed. -/
structure alloc_oracle where
  perm_ok : Bool
  w_ok : Bool
  ws_ok : Bool
  wa_ok : Bool
  viterbi_ok : Bool

/-- The check of source line 133: all five buffers were allocated. -/
def alloc_oracle.ok (a : alloc_oracle) : Bool :=
  a.perm_ok && a.w_ok && a.ws_ok && a.wa_ok && a.viterbi_ok

/-- The oracle under which every allocation succeeds. -/
def allocAll : alloc_oracle := ⟨true, true, true, true, true⟩

/-- Modelled from the spec: the distinguished out-of-memory status code
`CRFERR_OUTOFMEMORY` is declared in `crfsuite.h`, a header that is not part
of this unit; the spec fixes only that it is a failure code distinct from
the success status 0, so a representative nonzero value is used. -/
def CRFERR_OUTOFMEMORY : Int := -2

/-- What `crf_train_averaged_perceptron` hands back: the status code `ret`,
the out-parameter `*ptr_w` (written only on success, with the materialised
`wa` array of length `num_features`), plus the final state and the ghost
epoch trace. -/
structure RunResult where
  ret : Int
  ptr_w : Option (List ℚ)
  final : APState
  trace : List (APState × ℚ)

/-- The entry point `crf_train_averaged_perceptron` (source lines 101–226):
allocate the five buffers (failure returns `CRFERR_OUTOFMEMORY` and never
writes `*ptr_w`), run up to `max_iterations.toNat` epochs (`for i = 0;
i < max_iterations` over a C `int`), and on completion write the `wa`
buffer to `*ptr_w` and return `ret = 0`.  After zero epochs the `wa`
buffer still holds its calloc zeros, which coincides with `waOf initState`
(`0 - (1/1)·0`), so the success path materialises `waOf` of the final
state uniformly. -/
def crf_train_averaged_perceptron (B : crf_train_data_t) (opt : option_t)
    (perms : ℕ → List ℕ) (alloc : alloc_oracle) : RunResult :=
  if alloc.ok then
    let r := trainLoop B opt.epsilon perms opt.max_iterations.toNat 0 initState
    { ret := 0
      ptr_w := some ((List.range B.num_features).map (waOf r.1))
      final := r.1
      trace := r.2 }
  else
    { ret := CRFERR_OUTOFMEMORY, ptr_w := none, final := initState, trace := [] }

/-- Cumulative value contributed at feature `f` by one oracle visit list. -/
def visitSum (visits : List (ℕ × ℚ)) (f : ℕ) : ℚ :=
  ((visits.filter fun p => decide (p.1 = f)).map Prod.snd).sum

/-- Concrete empty batch with 3 features; decoder and oracle are trivial. -/
def batchEmpty : crf_train_data_t :=
  ⟨[], 3, fun _ _ => ([], 0), fun _ _ => []⟩

/-- Shuffle oracle producing the empty permutation each epoch. -/
def permsNil : ℕ → List ℕ := fun _ => []

/-- Concrete one-instance batch whose decoder always returns the gold
labels, so it never makes a mistake. -/
def batchGold : crf_train_data_t :=
  ⟨[⟨[0]⟩], 1, fun _ s => (s.labels, 0), fun _ _ => []⟩

/-- Shuffle oracle for a one-instance batch: the identity permutation. -/
def perms0 : ℕ → List ℕ := fun _ => [0]

/-- Concrete single-mistake batch of the spec's worked example: one
instance with one item, gold label 0 always decoded as 1; feature f1 = 0 is
active with value 1 under the gold labelling, feature f2 = 1 with value 1
under the predicted one. -/
def batchMistake : crf_train_data_t :=
  ⟨[⟨[0]⟩], 2, fun _ _ => ([1], 0),
   fun _ ys =>
     if ys = [0] then [(0, 1)] else if ys = [1] then [(1, 1)] else []⟩


/-- The running-sum invariant behind the averaging trick: the ghost history
holds `c - 1` snapshots, and their per-feature sum is `c·w[f] − ws[f]`. -/
def SnapInv (st : APState) : Prop :=
  st.hist.length + 1 = st.c ∧
  ∀ f, ((st.hist.map fun h => h f).sum) = (st.c : ℚ) * st.w f - st.ws f

/-- Historical weight-vector snapshots as the specification names them: the
initial all-zero vector followed by the value of `w` after each processed
instance (recorded by the ghost `hist` field). -/
def snapshots (st : APState) : List WArray :=
  (fun _ => 0) :: st.hist

/-- Naive per-instance snapshot averaging, following the specification's
words: the arithmetic mean, at feature `f`, of all historical snapshots. -/
def snapshotMean (st : APState) (f : ℕ) : ℚ :=
  ((snapshots st).map fun h => h f).sum / ((snapshots st).length : ℚ)

/-- Concrete decoders differing only in the reported score. -/
def batchScore5 : crf_train_data_t :=
  ⟨[⟨[0]⟩], 1, fun _ s => (s.labels, 5), fun _ _ => []⟩

/-- Same batch as `batchScore5` but the decoder reports score 7. -/
def batchScore7 : crf_train_data_t :=
  ⟨[⟨[0]⟩], 1, fun _ s => (s.labels, 7), fun _ _ => []⟩

/-! ### Basic projection lemmas -/

@[simp] lemma bumpShuffle_w (st : APState) : (bumpShuffle st).w = st.w := rfl

@[simp] lemma bumpShuffle_ws (st : APState) : (bumpShuffle st).ws = st.ws := rfl

@[simp] lemma bumpShuffle_c (st : APState) : (bumpShuffle st).c = st.c := rfl

@[simp] lemma bumpShuffle_hist (st : APState) :
    (bumpShuffle st).hist = st.hist := rfl

@[simp] lemma bumpShuffle_decodeCalls (st : APState) :
    (bumpShuffle st).decodeCalls = st.decodeCalls := rfl

@[simp] lemma bumpShuffle_enumCalls (st : APState) :
    (bumpShuffle st).enumCalls = st.enumCalls := rfl

lemma enum_apply_cons (p : ℕ × ℚ) (t : List (ℕ × ℚ)) (ud : update_data) :
    enum_apply (p :: t) ud = enum_apply t (update_weights ud p.1 p.2) := rfl

lemma enum_apply_c (vs : List (ℕ × ℚ)) :
    ∀ ud : update_data, (enum_apply vs ud).c = ud.c := by
  induction vs with
  | nil => intro ud; rfl
  | cons p t ih =>
    intro ud
    rw [enum_apply_cons, ih]
    rfl

lemma enum_apply_cs (vs : List (ℕ × ℚ)) :
    ∀ ud : update_data, (enum_apply vs ud).cs = ud.cs := by
  induction vs with
  | nil => intro ud; rfl
  | cons p t ih =>
    intro ud
    rw [enum_apply_cons, ih]
    rfl

@[simp] lemma visitSum_nil (f : ℕ) : visitSum [] f = 0 := rfl

lemma visitSum_cons (p : ℕ × ℚ) (t : List (ℕ × ℚ)) (f : ℕ) :
    visitSum (p :: t) f =
      (if p.1 = f then p.2 else 0) + visitSum t f := by
  by_cases h : p.1 = f <;>
    simp [visitSum, List.filter_cons, h]

/-- Net effect of one `enum_features` callback sweep on `w`, per feature. -/
lemma enum_apply_w (vs : List (ℕ × ℚ)) :
    ∀ (ud : update_data) (f : ℕ),
      (enum_apply vs ud).w f = ud.w f + ud.c * visitSum vs f := by
  induction vs with
  | nil => intro ud f; simp [enum_apply]
  | cons p t ih =>
    intro ud f
    rw [enum_apply_cons, ih, visitSum_cons]
    by_cases h : p.1 = f
    · simp [update_weights, Function.update_apply, h]
      ring
    · simp [update_weights, Function.update_apply, h, Ne.symm h]

/-- Net effect of one `enum_features` callback sweep on `ws`, per feature. -/
lemma enum_apply_ws (vs : List (ℕ × ℚ)) :
    ∀ (ud : update_data) (f : ℕ),
      (enum_apply vs ud).ws f = ud.ws f + ud.cs * visitSum vs f := by
  induction vs with
  | nil => intro ud f; simp [enum_apply]
  | cons p t ih =>
    intro ud f
    rw [enum_apply_cons, ih, visitSum_cons]
    by_cases h : p.1 = f
    · simp [update_weights, Function.update_apply, h]
      ring
    · simp [update_weights, Function.update_apply, h, Ne.symm h]

/-! ### Shape of a single instance step -/

lemma processInstance_c (B : crf_train_data_t) (seq : crf_instance_t)
    (st : APState) (l : ℚ) :
    (processInstance B seq st l).1.c = st.c + 1 := by
  simp only [processInstance]
  split <;> rfl

lemma processInstance_decodeCalls (B : crf_train_data_t)
    (seq : crf_instance_t) (st : APState) (l : ℚ) :
    (processInstance B seq st l).1.decodeCalls = st.decodeCalls + 1 := by
  simp only [processInstance]
  split <;> rfl

lemma processInstance_shuffleCalls (B : crf_train_data_t)
    (seq : crf_instance_t) (st : APState) (l : ℚ) :
    (processInstance B seq st l).1.shuffleCalls = st.shuffleCalls := by
  simp only [processInstance]
  split <;> rfl

lemma processInstance_hist (B : crf_train_data_t) (seq : crf_instance_t)
    (st : APState) (l : ℚ) :
    (processInstance B seq st l).1.hist
      = st.hist ++ [(processInstance B seq st l).1.w] := by
  simp only [processInstance]
  split <;> rfl

/-- A single instance step changes `w` by some per-feature delta `u` and
`ws` by `c · u`, for the pre-step counter `c` (with `u = 0` when the
decoder made no counted mistake). -/
lemma processInstance_shape (B : crf_train_data_t) (seq : crf_instance_t)
    (st : APState) (l : ℚ) :
    ∃ u : WArray,
      (∀ f, (processInstance B seq st l).1.w f = st.w f + u f) ∧
      (∀ f, (processInstance B seq st l).1.ws f
          = st.ws f + (st.c : ℚ) * u f) := by
  by_cases h : 0 < diff seq.labels ((B.tag st.w seq).1)
  · refine ⟨fun f => visitSum (B.enum_features seq seq.labels) f
        - visitSum (B.enum_features seq ((B.tag st.w seq).1)) f, ?_, ?_⟩ <;>
      intro f <;>
      simp only [processInstance, if_pos h, enum_apply_w, enum_apply_ws,
        enum_apply_c, enum_apply_cs] <;>
      ring
  · refine ⟨fun _ => 0, ?_, ?_⟩ <;>
      intro f <;>
      simp [processInstance, if_neg h]

lemma processInstance_loss_of_mistake (B : crf_train_data_t)
    (seq : crf_instance_t) (st : APState) (l : ℚ)
    (h : 0 < diff seq.labels ((B.tag st.w seq).1)) :
    (processInstance B seq st l).2
      = l + (diff seq.labels ((B.tag st.w seq).1) : ℚ)
            / (seq.num_items : ℚ) := by
  simp only [processInstance, if_pos h]

lemma processInstance_loss_of_correct (B : crf_train_data_t)
    (seq : crf_instance_t) (st : APState) (l : ℚ)
    (h : ¬ 0 < diff seq.labels ((B.tag st.w seq).1)) :
    (processInstance B seq st l).2 = l := by
  simp only [processInstance, if_neg h]

lemma processInstance_loss_nonneg (B : crf_train_data_t)
    (seq : crf_instance_t) (st : APState) (l : ℚ) (hl : 0 ≤ l) :
    0 ≤ (processInstance B seq st l).2 := by
  by_cases h : 0 < diff seq.labels ((B.tag st.w seq).1)
  · rw [processInstance_loss_of_mistake B seq st l h]
    have hd : (0 : ℚ) ≤ (diff seq.labels ((B.tag st.w seq).1) : ℚ) := by
      positivity
    have hn : (0 : ℚ) ≤ (seq.num_items : ℚ) := by positivity
    have := div_nonneg hd hn
    linarith
  · rw [processInstance_loss_of_correct B seq st l h]
    exact hl

/-! ### Generic preservation through the loops -/

/-- Invariant transport through one epoch's fold: if a state predicate `P`
and a loss predicate `Q` are preserved by every instance step, they are
preserved by the whole instance loop. -/
lemma foldl_pres (B : crf_train_data_t) (P : APState → Prop) (Q : ℚ → Prop)
    (hstep : ∀ seq st l, P st → Q l →
      P (processInstance B seq st l).1 ∧ Q (processInstance B seq st l).2) :
    ∀ (perm : List ℕ) (a : APState × ℚ), P a.1 → Q a.2 →
      P ((perm.foldl
          (fun a i => processInstance B (B.seqs.getD i ⟨[]⟩) a.1 a.2) a).1) ∧
      Q ((perm.foldl
          (fun a i => processInstance B (B.seqs.getD i ⟨[]⟩) a.1 a.2) a).2) := by
  intro perm
  induction perm with
  | nil => intro a hP hQ; exact ⟨hP, hQ⟩
  | cons i t ih =>
    intro a hP hQ
    have h := hstep (B.seqs.getD i ⟨[]⟩) a.1 a.2 hP hQ
    simpa [List.foldl_cons] using ih _ h.1 h.2

lemma runEpoch_pres (B : crf_train_data_t) (P : APState → Prop)
    (Q : ℚ → Prop)
    (hstep : ∀ seq st l, P st → Q l →
      P (processInstance B seq st l).1 ∧ Q (processInstance B seq st l).2)
    (perm : List ℕ) (st : APState) (hP : P st) (hQ0 : Q 0) :
    P (runEpoch B perm st).1 ∧ Q (runEpoch B perm st).2 :=
  foldl_pres B P Q hstep perm (st, 0) hP hQ0

/-- Invariant transport through the epoch loop: if every epoch (its opening
shuffle included) preserves `P` and establishes `Q` of its loss, then `P`
holds of the final state and every epoch-end trace entry satisfies `P`
and `Q`. -/
lemma trainLoop_pres (B : crf_train_data_t) (eps : ℚ) (perms : ℕ → List ℕ)
    (P : APState → Prop) (Q : ℚ → Prop)
    (hepoch : ∀ i st, P st →
      P (runEpoch B (perms i) (bumpShuffle st)).1 ∧
      Q (runEpoch B (perms i) (bumpShuffle st)).2) :
    ∀ (fuel i : ℕ) (st : APState), P st →
      P (trainLoop B eps perms fuel i st).1 ∧
      ∀ pr ∈ (trainLoop B eps perms fuel i st).2, P pr.1 ∧ Q pr.2 := by
  intro fuel
  induction fuel with
  | zero =>
    intro i st h
    exact ⟨h, by intro pr hpr; simp [trainLoop] at hpr⟩
  | succ n ih =>
    intro i st h
    have he := hepoch i st h
    simp only [trainLoop]
    split
    · exact ⟨he.1, by
        intro pr hpr
        simp only [List.mem_singleton] at hpr
        subst hpr
        exact ⟨he.1, he.2⟩⟩
    · have hr := ih (i + 1) _ he.1
      refine ⟨hr.1, ?_⟩
      intro pr hpr
      simp only [List.mem_cons] at hpr
      rcases hpr with hpr | hpr
      · subst hpr
        exact ⟨he.1, he.2⟩
      · exact hr.2 pr hpr

/-! ### The averaging invariant -/

lemma snapInv_init : SnapInv initState := by
  constructor
  · rfl
  · intro f
    simp [initState]

lemma snapInv_step (B : crf_train_data_t) (seq : crf_instance_t)
    (st : APState) (l : ℚ) (h : SnapInv st) :
    SnapInv (processInstance B seq st l).1 := by
  obtain ⟨u, hw, hws⟩ := processInstance_shape B seq st l
  obtain ⟨hlen, hsum⟩ := h
  constructor
  · rw [processInstance_hist, processInstance_c]
    simp only [List.length_append, List.length_cons, List.length_nil]
    omega
  · intro f
    rw [processInstance_hist, List.map_append, List.sum_append,
      processInstance_c]
    simp only [List.map_cons, List.map_nil, List.sum_cons, List.sum_nil]
    rw [hw f, hws f, hsum f]
    push_cast
    ring

lemma snapInv_bump (st : APState) (h : SnapInv st) :
    SnapInv (bumpShuffle st) := by
  obtain ⟨h1, h2⟩ := h
  exact ⟨h1, h2⟩

/-- Every epoch-end state of a full training run satisfies the averaging
invariant, and so does the final state. -/
lemma snapInv_run (B : crf_train_data_t) (eps : ℚ) (perms : ℕ → List ℕ)
    (fuel i : ℕ) :
    SnapInv (trainLoop B eps perms fuel i initState).1 ∧
    ∀ pr ∈ (trainLoop B eps perms fuel i initState).2, SnapInv pr.1 := by
  have h := trainLoop_pres B eps perms SnapInv (fun _ => True)
    (fun j st hst =>
      ⟨(runEpoch_pres B SnapInv (fun _ => True)
          (fun seq st2 l2 hP _ => ⟨snapInv_step B seq st2 l2 hP, trivial⟩)
          (perms j) (bumpShuffle st) (snapInv_bump st hst) trivial).1,
        trivial⟩)
    fuel i initState snapInv_init
  exact ⟨h.1, fun pr hpr => (h.2 pr hpr).1⟩

lemma snapInv_wa (st : APState) (h : SnapInv st) :
    (snapshots st).length = st.c ∧
    ∀ f, waOf st f = snapshotMean st f := by
  obtain ⟨hlen, hsum⟩ := h
  have hc : (st.c : ℚ) ≠ 0 := by
    have h0 : 0 < st.c := by omega
    exact_mod_cast h0.ne'
  constructor
  · simp only [snapshots, List.length_cons]
    omega
  · intro f
    have h1 : ((snapshots st).map fun h => h f).sum
        = (st.c : ℚ) * st.w f - st.ws f := by
      simp [snapshots, hsum f]
    have h2 : (((snapshots st).length : ℕ) : ℚ) = (st.c : ℚ) := by
      have : (snapshots st).length = st.c := by
        simp only [snapshots, List.length_cons]
        omega
      exact_mod_cast congrArg Nat.cast this
    rw [snapshotMean, h1, h2, waOf]
    field_simp
    ring

/-! ### Projections of a successful run -/

lemma run_trace (B : crf_train_data_t) (opt : option_t)
    (perms : ℕ → List ℕ) :
    (crf_train_averaged_perceptron B opt perms allocAll).trace
      = (trainLoop B opt.epsilon perms opt.max_iterations.toNat 0
          initState).2 := rfl

lemma run_final (B : crf_train_data_t) (opt : option_t)
    (perms : ℕ → List ℕ) :
    (crf_train_averaged_perceptron B opt perms allocAll).final
      = (trainLoop B opt.epsilon perms opt.max_iterations.toNat 0
          initState).1 := rfl

lemma run_ret (B : crf_train_data_t) (opt : option_t)
    (perms : ℕ → List ℕ) :
    (crf_train_averaged_perceptron B opt perms allocAll).ret = 0 := rfl

lemma run_ptr_w (B : crf_train_data_t) (opt : option_t)
    (perms : ℕ → List ℕ) :
    (crf_train_averaged_perceptron B opt perms allocAll).ptr_w
      = some ((List.range B.num_features).map
          (waOf (trainLoop B opt.epsilon perms opt.max_iterations.toNat 0
            initState).1)) := rfl

/-- Claim C3: at the end of every epoch of a training run, the recomputed
average satisfies `wa[f] = w[f] − ws[f]/c` with the current counter `c`,
and this `wa` equals the arithmetic mean of the `c` historical weight
snapshots — the initial all-zero vector plus the value of `w` after each of
the `c − 1` instances processed so far; the O(features) running-sum formula
agrees with the naive snapshot average. -/
theorem C3_wa_is_snapshot_mean (B : crf_train_data_t) (opt : option_t)
    (perms : ℕ → List ℕ) (pr : APState × ℚ)
    (hpr : pr ∈ (crf_train_averaged_perceptron B opt perms allocAll).trace) :
    (snapshots pr.1).length = pr.1.c ∧
    ∀ f, waOf pr.1 f = pr.1.w f - pr.1.ws f / (pr.1.c : ℚ) ∧
      waOf pr.1 f = snapshotMean pr.1 f := by
  rw [run_trace] at hpr
  have hinv := (snapInv_run B opt.epsilon perms opt.max_iterations.toNat
    0).2 pr hpr
  have hwa := snapInv_wa pr.1 hinv
  refine ⟨hwa.1, fun f => ⟨?_, hwa.2 f⟩⟩
  rw [waOf]
  ring

/-- Witness for C3 on the spec's worked single-mistake example. -/
theorem C3_witness :
    (snapshots ((crf_train_averaged_perceptron batchMistake ⟨1, 0⟩ perms0
        allocAll).trace.get ⟨0, by decide⟩).1).length
      = ((crf_train_averaged_perceptron batchMistake ⟨1, 0⟩ perms0
        allocAll).trace.get ⟨0, by decide⟩).1.c ∧
    waOf ((crf_train_averaged_perceptron batchMistake ⟨1, 0⟩ perms0
        allocAll).trace.get ⟨0, by decide⟩).1 0
      = snapshotMean ((crf_train_averaged_perceptron batchMistake ⟨1, 0⟩
        perms0 allocAll).trace.get ⟨0, by decide⟩).1 0 := by
  have h := C3_wa_is_snapshot_mean batchMistake ⟨1, 0⟩ perms0
    ((crf_train_averaged_perceptron batchMistake ⟨1, 0⟩ perms0
      allocAll).trace.get ⟨0, by decide⟩)
    (List.get_mem _ _ _)
  exact ⟨h.1, (h.2 0).2⟩

/-! ### Counter facts -/

lemma foldl_c_le (B : crf_train_data_t) :
    ∀ (perm : List ℕ) (a : APState × ℚ),
      a.1.c ≤ ((perm.foldl
        (fun a i => processInstance B (B.seqs.getD i ⟨[]⟩) a.1 a.2) a).1).c := by
  intro perm
  induction perm with
  | nil => intro a; exact le_rfl
  | cons i t ih =>
    intro a
    have h1 : a.1.c ≤ (processInstance B (B.seqs.getD i ⟨[]⟩) a.1 a.2).1.c := by
      rw [processInstance_c]
      omega
    calc a.1.c ≤ (processInstance B (B.seqs.getD i ⟨[]⟩) a.1 a.2).1.c := h1
      _ ≤ _ := by
        simpa [List.foldl_cons] using
          ih (processInstance B (B.seqs.getD i ⟨[]⟩) a.1 a.2)

lemma runEpoch_c_le (B : crf_train_data_t) (perm : List ℕ) (st : APState) :
    st.c ≤ (runEpoch B perm st).1.c :=
  foldl_c_le B perm (st, 0)

lemma trainLoop_c_facts (B : crf_train_data_t) (eps : ℚ)
    (perms : ℕ → List ℕ) :
    ∀ (fuel i : ℕ) (st : APState),
      st.c ≤ (trainLoop B eps perms fuel i st).1.c ∧
      (∀ pr ∈ (trainLoop B eps perms fuel i st).2,
        st.c ≤ pr.1.c ∧ pr.1.c ≤ (trainLoop B eps perms fuel i st).1.c) ∧
      ((trainLoop B eps perms fuel i st).2.map
        fun pr => pr.1.c).Pairwise (· ≤ ·) := by
  intro fuel
  induction fuel with
  | zero =>
    intro i st
    refine ⟨le_rfl, ?_, ?_⟩ <;> simp [trainLoop]
  | succ n ih =>
    intro i st
    have hep : st.c ≤ (runEpoch B (perms i) (bumpShuffle st)).1.c := by
      have h := runEpoch_c_le B (perms i) (bumpShuffle st)
      simpa using h
    simp only [trainLoop]
    split
    · refine ⟨hep, ?_, ?_⟩
      · intro pr hpr
        simp only [List.mem_singleton] at hpr
        subst hpr
        exact ⟨hep, le_rfl⟩
      · simp
    · obtain ⟨h1, h2, h3⟩ := ih (i + 1) (runEpoch B (perms i) (bumpShuffle st)).1
      refine ⟨le_trans hep h1, ?_, ?_⟩
      · intro pr hpr
        simp only [List.mem_cons] at hpr
        rcases hpr with rfl | hpr
        · exact ⟨hep, h1⟩
        · exact ⟨le_trans hep (h2 pr hpr).1, (h2 pr hpr).2⟩
      · rw [List.map_cons]
        refine List.Pairwise.cons ?_ h3
        intro b hb
        obtain ⟨pr, hpr, rfl⟩ := List.mem_map.mp hb
        exact (h2 pr hpr).1

/-! ### No-mistake facts -/

lemma diff_self (x : List Int) : diff x x = 0 := by
  induction x with
  | nil => rfl
  | cons a t ih =>
    simpa [diff, List.zip_cons_cons, List.countP_cons] using ih

lemma processInstance_w_of_correct (B : crf_train_data_t)
    (seq : crf_instance_t) (st : APState) (l : ℚ)
    (h : ¬ 0 < diff seq.labels ((B.tag st.w seq).1)) :
    (processInstance B seq st l).1.w = st.w := by
  simp [processInstance, if_neg h]

lemma processInstance_ws_of_correct (B : crf_train_data_t)
    (seq : crf_instance_t) (st : APState) (l : ℚ)
    (h : ¬ 0 < diff seq.labels ((B.tag st.w seq).1)) :
    (processInstance B seq st l).1.ws = st.ws := by
  simp [processInstance, if_neg h]

/-- Claim C5: the update counter starts at 1, is incremented by exactly one
per processed instance whether or not a mistake occurred, and is never
reset across epochs: at every epoch end and at the end of the run,
`c = (instances processed so far) + 1`, and `c` is monotonically
non-decreasing along the run. -/
theorem C5_counter_monotone (B : crf_train_data_t) (opt : option_t)
    (perms : ℕ → List ℕ) :
    initState.c = 1 ∧
    (crf_train_averaged_perceptron B opt perms allocAll).final.c
      = (crf_train_averaged_perceptron B opt perms allocAll).final.decodeCalls
        + 1 ∧
    (∀ pr ∈ (crf_train_averaged_perceptron B opt perms allocAll).trace,
      pr.1.c = pr.1.decodeCalls + 1 ∧ 1 ≤ pr.1.c ∧
      pr.1.c ≤ (crf_train_averaged_perceptron B opt perms allocAll).final.c) ∧
    ((crf_train_averaged_perceptron B opt perms allocAll).trace.map
      fun pr => pr.1.c).Pairwise (· ≤ ·) := by
  have hP := trainLoop_pres B opt.epsilon perms
    (fun st => st.c = st.decodeCalls + 1) (fun _ => True)
    (fun j st hst =>
      ⟨(runEpoch_pres B (fun st => st.c = st.decodeCalls + 1) (fun _ => True)
          (fun seq st2 l2 h2 _ => by
            refine ⟨?_, trivial⟩
            show (processInstance B seq st2 l2).1.c
              = (processInstance B seq st2 l2).1.decodeCalls + 1
            have h3 : st2.c = st2.decodeCalls + 1 := h2
            rw [processInstance_c, processInstance_decodeCalls, h3])
          (perms j) (bumpShuffle st) (by simpa using hst) trivial).1,
        trivial⟩)
    opt.max_iterations.toNat 0 initState rfl
  have hC := trainLoop_c_facts B opt.epsilon perms opt.max_iterations.toNat
    0 initState
  rw [run_final, run_trace]
  refine ⟨rfl, hP.1, ?_, hC.2.2⟩
  intro pr hpr
  exact ⟨(hP.2 pr hpr).1, (hC.2.1 pr hpr).1, (hC.2.1 pr hpr).2⟩

/-- Witness for C5 on a concrete two-epoch run. -/
theorem C5_witness :
    (crf_train_averaged_perceptron batchGold ⟨2, 0⟩ perms0 allocAll).final.c
      = (crf_train_averaged_perceptron batchGold ⟨2, 0⟩ perms0
          allocAll).final.decodeCalls + 1 ∧
    ((crf_train_averaged_perceptron batchGold ⟨2, 0⟩ perms0
        allocAll).trace.get ⟨0, by decide⟩).1.c
      = ((crf_train_averaged_perceptron batchGold ⟨2, 0⟩ perms0
        allocAll).trace.get ⟨0, by decide⟩).1.decodeCalls + 1 := by
  have h := C5_counter_monotone batchGold ⟨2, 0⟩ perms0
  exact ⟨h.2.1, (h.2.2.1 _ (List.get_mem _ _ _)).1⟩

/-- Claim C7: if the decoder's prediction always equals the gold labels,
`w` and `ws` never change from zero, `wa` is the zero vector at every
epoch-end recomputation, and every epoch's loss is 0. -/
theorem C7_no_mistake_stability (B : crf_train_data_t) (opt : option_t)
    (perms : ℕ → List ℕ)
    (htag : ∀ w seq, (B.tag w seq).1 = seq.labels) :
    (∀ f, (crf_train_averaged_perceptron B opt perms allocAll).final.w f = 0 ∧
      (crf_train_averaged_perceptron B opt perms allocAll).final.ws f = 0) ∧
    ∀ pr ∈ (crf_train_averaged_perceptron B opt perms allocAll).trace,
      (∀ f, pr.1.w f = 0 ∧ pr.1.ws f = 0 ∧ waOf pr.1 f = 0) ∧ pr.2 = 0 := by
  have key : ∀ (seq : crf_instance_t) (st : APState) (l : ℚ),
      (∀ f, st.w f = 0 ∧ st.ws f = 0) → l = 0 →
      (∀ f, (processInstance B seq st l).1.w f = 0 ∧
        (processInstance B seq st l).1.ws f = 0) ∧
      (processInstance B seq st l).2 = 0 := by
    intro seq st l hst hl
    have hd : ¬ 0 < diff seq.labels ((B.tag st.w seq).1) := by
      rw [htag st.w seq, diff_self]
      omega
    refine ⟨?_, ?_⟩
    · intro f
      rw [processInstance_w_of_correct B seq st l hd,
        processInstance_ws_of_correct B seq st l hd]
      exact hst f
    · rw [processInstance_loss_of_correct B seq st l hd]
      exact hl
  have hP := trainLoop_pres B opt.epsilon perms
    (fun st => ∀ f, st.w f = 0 ∧ st.ws f = 0) (fun l => l = 0)
    (fun j st hst =>
      runEpoch_pres B (fun st => ∀ f, st.w f = 0 ∧ st.ws f = 0)
        (fun l => l = 0) key (perms j) (bumpShuffle st)
        (by simpa using hst) rfl)
    opt.max_iterations.toNat 0 initState (fun f => ⟨rfl, rfl⟩)
  rw [run_final, run_trace]
  refine ⟨hP.1, ?_⟩
  intro pr hpr
  obtain ⟨h1, h2⟩ := hP.2 pr hpr
  refine ⟨?_, h2⟩
  intro f
  refine ⟨(h1 f).1, (h1 f).2, ?_⟩
  rw [waOf, (h1 f).1, (h1 f).2]
  ring

/-- Witness for C7 on a concrete gold-decoder batch. -/
theorem C7_witness :
    (∀ f, (crf_train_averaged_perceptron batchGold ⟨2, 0⟩ perms0
        allocAll).final.w f = 0 ∧
      (crf_train_averaged_perceptron batchGold ⟨2, 0⟩ perms0
        allocAll).final.ws f = 0) ∧
    ((crf_train_averaged_perceptron batchGold ⟨2, 0⟩ perms0
        allocAll).trace.get ⟨0, by decide⟩).2 = 0 := by
  have h := C7_no_mistake_stability batchGold ⟨2, 0⟩ perms0
    (fun _ _ => rfl)
  exact ⟨h.1, (h.2 _ (List.get_mem _ _ _)).2⟩

/-! ### Epoch counts under epsilon = 0 -/

lemma runEpoch_loss_nonneg (B : crf_train_data_t) (perm : List ℕ)
    (st : APState) : 0 ≤ (runEpoch B perm st).2 :=
  (runEpoch_pres B (fun _ => True) (fun l => 0 ≤ l)
    (fun seq st2 l2 _ h2 =>
      ⟨trivial, processInstance_loss_nonneg B seq st2 l2 h2⟩)
    perm st trivial le_rfl).2

/-- With `epsilon = 0` the convergence test is always false: for `N = 0`
the NaN comparison is false, and for `N ≠ 0` the non-negative quotient
`loss / N` is never strictly below 0. -/
lemma convergenceTest_eps0 (loss : ℚ) (N : ℕ) (hl : 0 ≤ loss) :
    convergenceTest loss N 0 = false := by
  unfold convergenceTest
  split
  · rfl
  · simp only [decide_eq_false_iff_not, not_lt]
    positivity

lemma trainLoop_length_eps0 (B : crf_train_data_t) (perms : ℕ → List ℕ) :
    ∀ (fuel i : ℕ) (st : APState),
      (trainLoop B 0 perms fuel i st).2.length = fuel := by
  intro fuel
  induction fuel with
  | zero => intro i st; rfl
  | succ n ih =>
    intro i st
    have hct : convergenceTest (runEpoch B (perms i) (bumpShuffle st)).2
        B.num_instances 0 = false :=
      convergenceTest_eps0 _ _ (runEpoch_loss_nonneg B (perms i)
        (bumpShuffle st))
    simp only [trainLoop, hct]
    simp [ih (i + 1)]

/-- Counterexample to claim C2 as stated: with `epsilon = 0`, a non-empty
batch and a decoder that never errs, the first epoch already accumulates
loss 0, yet training does not stop before the iteration cap: both
configured epochs run, because the test `loss / N < 0` is false even at
loss 0. -/
theorem C2_counterexample :
    ((crf_train_averaged_perceptron batchGold ⟨2, 0⟩ perms0 allocAll).trace.map
      Prod.snd) = [0, 0] ∧
    (crf_train_averaged_perceptron batchGold ⟨2, 0⟩ perms0
      allocAll).trace.length = 2 := by
  constructor <;> decide

/-- Claim C2 (amended): with `epsilon = 0` and a non-empty batch the
convergence test never fires — `loss / N` is non-negative and never
strictly below 0, even for an epoch with loss 0 — so training always runs
exactly `max_iterations.toNat` epochs, never stopping before the cap. -/
theorem C2_amended_never_stops_early (B : crf_train_data_t)
    (perms : ℕ → List ℕ) (m : Int) (_hne : B.seqs ≠ []) :
    (crf_train_averaged_perceptron B ⟨m, 0⟩ perms allocAll).trace.length
      = m.toNat := by
  rw [run_trace]
  exact trainLoop_length_eps0 B perms m.toNat 0 initState

/-- Witness for the amended C2 on a concrete three-epoch run. -/
theorem C2_witness :
    batchGold.seqs ≠ [] ∧
    (crf_train_averaged_perceptron batchGold ⟨3, 0⟩ perms0
      allocAll).trace.length = (3 : Int).toNat :=
  ⟨List.cons_ne_nil _ _,
    C2_amended_never_stops_early batchGold perms0 3 (List.cons_ne_nil _ _)⟩

/-- Evaluation of the source at claim C1's scenario: an empty batch with
`max_iterations = 2` and `epsilon = 0` runs BOTH (degenerate) epochs — the
convergence break never fires, since `loss / N` there is the IEEE value
`0.0 / 0 = NaN` and `NaN < epsilon` is false — while still returning
status 0 and the all-zero vector.  The claim's mandated
stop-after-one-epoch behaviour does not hold in the code. -/
theorem C1_empty_batch_runs_all_epochs :
    (crf_train_averaged_perceptron batchEmpty ⟨2, 0⟩ permsNil
      allocAll).trace.length = 2 ∧
    (crf_train_averaged_perceptron batchEmpty ⟨2, 0⟩ permsNil
      allocAll).ret = 0 ∧
    (crf_train_averaged_perceptron batchEmpty ⟨2, 0⟩ permsNil
      allocAll).ptr_w = some [0, 0, 0] := by
  refine ⟨?_, rfl, ?_⟩ <;> decide

/-! ### Empty batch and zero iterations -/

lemma waOf_zero_state (st : APState) (hw : ∀ f, st.w f = 0)
    (hws : ∀ f, st.ws f = 0) (f : ℕ) : waOf st f = 0 := by
  rw [waOf, hw f, hws f]
  ring

/-- Claim C6: with zero training instances the per-epoch instance loop
never executes, `w` and `ws` stay all-zero, and the trainer succeeds,
returning the all-zero weight vector of length `num_features` — a defined
behaviour. -/
theorem C6_empty_batch_zero_vector (B : crf_train_data_t) (opt : option_t)
    (perms : ℕ → List ℕ) (hB : B.seqs = [])
    (hperm : ∀ i, (perms i).Perm (List.range B.num_instances)) :
    (crf_train_averaged_perceptron B opt perms allocAll).ret = 0 ∧
    (crf_train_averaged_perceptron B opt perms allocAll).ptr_w
      = some (List.replicate B.num_features 0) ∧
    (crf_train_averaged_perceptron B opt perms allocAll).final.decodeCalls
      = 0 ∧
    ∀ f, (crf_train_averaged_perceptron B opt perms allocAll).final.w f = 0 ∧
      (crf_train_averaged_perceptron B opt perms allocAll).final.ws f = 0 := by
  have hpnil : ∀ i, perms i = [] := by
    intro i
    have h := hperm i
    rw [crf_train_data_t.num_instances, hB] at h
    simpa using h.eq_nil
  have hP := trainLoop_pres B opt.epsilon perms
    (fun st => st.decodeCalls = 0 ∧ ∀ f, st.w f = 0 ∧ st.ws f = 0)
    (fun _ => True)
    (fun j st hst => by
      rw [hpnil j]
      exact ⟨⟨hst.1, hst.2⟩, trivial⟩)
    opt.max_iterations.toNat 0 initState ⟨rfl, fun f => ⟨rfl, rfl⟩⟩
  refine ⟨run_ret B opt perms, ?_, hP.1.1, hP.1.2⟩
  rw [run_ptr_w]
  congr 1
  rw [List.eq_replicate_iff]
  constructor
  · simp
  · intro b hb
    obtain ⟨f, _, rfl⟩ := List.mem_map.mp hb
    exact waOf_zero_state _ (fun g => (hP.1.2 g).1) (fun g => (hP.1.2 g).2) f

/-- Witness for C6 on the concrete empty batch. -/
theorem C6_witness :
    (crf_train_averaged_perceptron batchEmpty ⟨10, 0⟩ permsNil allocAll).ret
      = 0 ∧
    (crf_train_averaged_perceptron batchEmpty ⟨10, 0⟩ permsNil
      allocAll).ptr_w = some (List.replicate batchEmpty.num_features 0) := by
  have h := C6_empty_batch_zero_vector batchEmpty ⟨10, 0⟩ permsNil rfl
    (fun i => by simp [batchEmpty, permsNil, crf_train_data_t.num_instances])
  exact ⟨h.1, h.2.1⟩

/-- Claim C10: if the configured `max_iterations` is zero or negative, no
epoch runs at all — the decoder, the feature oracle and the shuffler are
never invoked — and the trainer still succeeds, returning status 0 and the
all-zero vector of length `num_features`. -/
theorem C10_nonpositive_max_iterations (B : crf_train_data_t) (eps : ℚ)
    (m : Int) (perms : ℕ → List ℕ) (hm : m ≤ 0) :
    (crf_train_averaged_perceptron B ⟨m, eps⟩ perms allocAll).trace = [] ∧
    (crf_train_averaged_perceptron B ⟨m, eps⟩ perms
      allocAll).final.decodeCalls = 0 ∧
    (crf_train_averaged_perceptron B ⟨m, eps⟩ perms
      allocAll).final.enumCalls = 0 ∧
    (crf_train_averaged_perceptron B ⟨m, eps⟩ perms
      allocAll).final.shuffleCalls = 0 ∧
    (crf_train_averaged_perceptron B ⟨m, eps⟩ perms allocAll).ret = 0 ∧
    (crf_train_averaged_perceptron B ⟨m, eps⟩ perms allocAll).ptr_w
      = some (List.replicate B.num_features 0) := by
  have h0 : (⟨m, eps⟩ : option_t).max_iterations.toNat = 0 :=
    Int.toNat_of_nonpos hm
  rw [run_trace, run_final, run_ret, run_ptr_w, h0]
  refine ⟨rfl, rfl, rfl, rfl, rfl, ?_⟩
  congr 1
  rw [List.eq_replicate_iff]
  refine ⟨by simp, ?_⟩
  intro b hb
  obtain ⟨f, _, rfl⟩ := List.mem_map.mp hb
  exact waOf_zero_state initState (fun _ => rfl) (fun _ => rfl) f

/-- Witness for C10 with `max_iterations = 0` on a concrete batch. -/
theorem C10_witness :
    (0 : Int) ≤ 0 ∧
    (crf_train_averaged_perceptron batchGold ⟨0, 0⟩ perms0 allocAll).trace
      = [] ∧
    (crf_train_averaged_perceptron batchGold ⟨0, 0⟩ perms0 allocAll).ptr_w
      = some (List.replicate batchGold.num_features 0) := by
  have h := C10_nonpositive_max_iterations batchGold 0 0 perms0 le_rfl
  exact ⟨le_rfl, h.1, h.2.2.2.2.2⟩

/-- Claim C8: if any of the five working-buffer allocations fails, the
trainer returns the out-of-memory status code and never writes the
out-parameter; on a successful run it returns status 0 and writes exactly
one vector — the materialised `wa` — to the out-parameter. -/
theorem C8_allocation_paths (B : crf_train_data_t) (opt : option_t)
    (perms : ℕ → List ℕ) (alloc : alloc_oracle) :
    (alloc.ok = false →
      (crf_train_averaged_perceptron B opt perms alloc).ret
        = CRFERR_OUTOFMEMORY ∧
      (crf_train_averaged_perceptron B opt perms alloc).ptr_w = none) ∧
    (alloc.ok = true →
      (crf_train_averaged_perceptron B opt perms alloc).ret = 0 ∧
      (crf_train_averaged_perceptron B opt perms alloc).ptr_w
        = some ((List.range B.num_features).map
            (waOf (crf_train_averaged_perceptron B opt perms
              alloc).final))) := by
  constructor <;> intro h <;>
    simp [crf_train_averaged_perceptron, h]

/-- Witness for C8: one failing allocation (the `perm` buffer) and one
fully successful allocation. -/
theorem C8_witness :
    ((crf_train_averaged_perceptron batchGold ⟨1, 0⟩ perms0
        ⟨false, true, true, true, true⟩).ret = CRFERR_OUTOFMEMORY ∧
      (crf_train_averaged_perceptron batchGold ⟨1, 0⟩ perms0
        ⟨false, true, true, true, true⟩).ptr_w = none) ∧
    ((crf_train_averaged_perceptron batchGold ⟨1, 0⟩ perms0 allocAll).ret
        = 0 ∧
      (crf_train_averaged_perceptron batchGold ⟨1, 0⟩ perms0
        allocAll).ptr_w
        = some ((List.range batchGold.num_features).map
            (waOf (crf_train_averaged_perceptron batchGold ⟨1, 0⟩ perms0
              allocAll).final))) :=
  ⟨(C8_allocation_paths batchGold ⟨1, 0⟩ perms0
      ⟨false, true, true, true, true⟩).1 rfl,
    (C8_allocation_paths batchGold ⟨1, 0⟩ perms0 allocAll).2 rfl⟩

/-! ### Score irrelevance -/

lemma processInstance_score_irrel (B1 B2 : crf_train_data_t)
    (he : B1.enum_features = B2.enum_features)
    (ht : ∀ w s, (B1.tag w s).1 = (B2.tag w s).1)
    (seq : crf_instance_t) (st : APState) (l : ℚ) :
    processInstance B1 seq st l = processInstance B2 seq st l := by
  simp only [processInstance, ht, he]

lemma foldl_score_irrel (B1 B2 : crf_train_data_t)
    (hs : B1.seqs = B2.seqs)
    (he : B1.enum_features = B2.enum_features)
    (ht : ∀ w s, (B1.tag w s).1 = (B2.tag w s).1) :
    ∀ (perm : List ℕ) (a : APState × ℚ),
      perm.foldl
        (fun a i => processInstance B1 (B1.seqs.getD i ⟨[]⟩) a.1 a.2) a
      = perm.foldl
        (fun a i => processInstance B2 (B2.seqs.getD i ⟨[]⟩) a.1 a.2) a := by
  have hfun : (fun (a : APState × ℚ) (i : ℕ) =>
      processInstance B1 (B1.seqs.getD i ⟨[]⟩) a.1 a.2)
      = fun (a : APState × ℚ) (i : ℕ) =>
        processInstance B2 (B2.seqs.getD i ⟨[]⟩) a.1 a.2 := by
    funext a i
    rw [hs, processInstance_score_irrel B1 B2 he ht]
  intro perm a
  rw [hfun]

lemma runEpoch_score_irrel (B1 B2 : crf_train_data_t)
    (hs : B1.seqs = B2.seqs)
    (he : B1.enum_features = B2.enum_features)
    (ht : ∀ w s, (B1.tag w s).1 = (B2.tag w s).1)
    (perm : List ℕ) (st : APState) :
    runEpoch B1 perm st = runEpoch B2 perm st :=
  foldl_score_irrel B1 B2 hs he ht perm (st, 0)

lemma trainLoop_score_irrel (B1 B2 : crf_train_data_t)
    (hs : B1.seqs = B2.seqs)
    (he : B1.enum_features = B2.enum_features)
    (ht : ∀ w s, (B1.tag w s).1 = (B2.tag w s).1)
    (eps : ℚ) (perms : ℕ → List ℕ) :
    ∀ (fuel i : ℕ) (st : APState),
      trainLoop B1 eps perms fuel i st = trainLoop B2 eps perms fuel i st := by
  intro fuel
  induction fuel with
  | zero => intro i st; rfl
  | succ n ih =>
    intro i st
    have hn : B1.num_instances = B2.num_instances := by
      rw [crf_train_data_t.num_instances, crf_train_data_t.num_instances, hs]
    simp only [trainLoop,
      runEpoch_score_irrel B1 B2 hs he ht (perms i) (bumpShuffle st), hn,
      ih (i + 1)]

/-- Claim C9: the score values the decoder reports never influence the
trainer: two runs over batches identical in everything except the score
component of the decoder's output produce identical results — same status,
same returned vector, same final `w`, `ws`, counter, and the same epoch
trace (states and losses), hence the same number of epochs. -/
theorem C9_score_never_influences (B1 B2 : crf_train_data_t)
    (opt : option_t) (perms : ℕ → List ℕ) (alloc : alloc_oracle)
    (hs : B1.seqs = B2.seqs)
    (hk : B1.num_features = B2.num_features)
    (he : B1.enum_features = B2.enum_features)
    (ht : ∀ w s, (B1.tag w s).1 = (B2.tag w s).1) :
    crf_train_averaged_perceptron B1 opt perms alloc
      = crf_train_averaged_perceptron B2 opt perms alloc := by
  unfold crf_train_averaged_perceptron
  rw [trainLoop_score_irrel B1 B2 hs he ht, hk]

/-- Witness for C9: the two score-differing batches produce equal runs. -/
theorem C9_witness :
    crf_train_averaged_perceptron batchScore5 ⟨2, 0⟩ perms0 allocAll
      = crf_train_averaged_perceptron batchScore7 ⟨2, 0⟩ perms0 allocAll :=
  C9_score_never_influences batchScore5 batchScore7 ⟨2, 0⟩ perms0 allocAll
    rfl rfl rfl (fun _ _ => rfl)

/-- Claim C4: on a mispredicted instance (`0 < d`), the features active
under the gold labelling contribute `+value` to `w[f]` and `+c·value` to
`ws[f]`, the features active under the predicted labelling contribute
`-value` and `-c·value`, and the epoch loss grows by `d / num_items`;
concretely, on the spec's worked one-instance example (gold feature f1 = 0
and predicted feature f2 = 1, each with value 1), after the first
processing `w[f1] = 1, w[f2] = -1, ws[f1] = 1, ws[f2] = -1`, and after
epoch-end averaging `wa[f1] = 1/2` and `wa[f2] = -1/2`. -/
theorem C4_update_rule :
    (∀ (B : crf_train_data_t) (seq : crf_instance_t) (st : APState) (l : ℚ),
      0 < diff seq.labels ((B.tag st.w seq).1) →
      (∀ f, (processInstance B seq st l).1.w f
          = st.w f + visitSum (B.enum_features seq seq.labels) f
            - visitSum (B.enum_features seq ((B.tag st.w seq).1)) f) ∧
      (∀ f, (processInstance B seq st l).1.ws f
          = st.ws f
            + (st.c : ℚ) * visitSum (B.enum_features seq seq.labels) f
            - (st.c : ℚ)
              * visitSum (B.enum_features seq ((B.tag st.w seq).1)) f) ∧
      (processInstance B seq st l).2
        = l + (diff seq.labels ((B.tag st.w seq).1) : ℚ)
              / (seq.num_items : ℚ)) ∧
    ((crf_train_averaged_perceptron batchMistake ⟨1, 0⟩ perms0
        allocAll).final.w 0 = 1 ∧
      (crf_train_averaged_perceptron batchMistake ⟨1, 0⟩ perms0
        allocAll).final.w 1 = -1 ∧
      (crf_train_averaged_perceptron batchMistake ⟨1, 0⟩ perms0
        allocAll).final.ws 0 = 1 ∧
      (crf_train_averaged_perceptron batchMistake ⟨1, 0⟩ perms0
        allocAll).final.ws 1 = -1 ∧
      (crf_train_averaged_perceptron batchMistake ⟨1, 0⟩ perms0
        allocAll).ptr_w = some [1 / 2, -1 / 2]) := by
  constructor
  · intro B seq st l h
    refine ⟨?_, ?_, processInstance_loss_of_mistake B seq st l h⟩ <;>
      intro f <;>
      simp only [processInstance, if_pos h, enum_apply_w, enum_apply_ws,
        enum_apply_c, enum_apply_cs] <;>
      ring
  · refine ⟨?_, ?_, ?_, ?_, ?_⟩ <;> decide

/-- Witness for C4's general part on the worked example instance. -/
theorem C4_witness :
    0 < diff (⟨[0]⟩ : crf_instance_t).labels
      ((batchMistake.tag initState.w ⟨[0]⟩).1) ∧
    (processInstance batchMistake ⟨[0]⟩ initState 0).2
      = 0 + ((diff (⟨[0]⟩ : crf_instance_t).labels
          ((batchMistake.tag initState.w ⟨[0]⟩).1) : ℕ) : ℚ)
            / ((⟨[0]⟩ : crf_instance_t).num_items : ℚ) :=
  ⟨by decide,
    (C4_update_rule.1 batchMistake ⟨[0]⟩ initState 0 (by decide)).2.2⟩
